import Mathlib

/-!
# Verification of core routines of a lexical numeric conversion library

This file gives a shallow embedding, in Lean 4, of the core routines of a
Rust lexical conversion library, together with theorems settling a list of
specification claims about it.

The embedded components are:

* the format-parameterized digit iterator with digit-separator skipping
  (`lexical-util/src/skip.rs` and `lexical-util/src/iterator.rs`):
  we model the `Bytes` state, the section iterators' `peek` dispatch
  (`peek_1`, `peek_n`, `peek_iltc`, `peek_noskip` and the positional
  predicates `is_l`, `is_t`, `is_i`, ...), `next`, `step_by_unchecked`,
  `skip_zeros`, `take_n`, `first` and `first_is_cased`;
* the sign / special-value prefix logic of the float writer
  (`lexical-write-float/src/write.rs`): `write_special`, `write_nan`,
  `write_inf` and the sign-extraction step of `WriteFloat::write_float`;
* the scientific-vs-positional decision of the hex/power-of-two float
  back-end (`lexical-write-float/src/hex.rs::write_float`);
* the compact integer writer (`lexical-write-integer/src/compact.rs`);
* the precomputed large-power tables
  (`src/atof/algorithm/large_powers.rs`).

Machine integers are modelled as `Nat` (bytes as `Nat` values `< 256`;
the loops involved never overflow their Rust types, as they only index
into slices or divide). Fallible/panicking code is modelled with
`Option`/`Except`. Rust `while` loops over slice indices are embedded as
structural recursions over the remaining list suffix (`sepRun`) or over
the index (`backSkip`), which compute the same fixpoints the loops do;
each such definition notes the loop it embeds.
-/

namespace Lexical

/-! ## Digit iterator model (`lexical-util/src/skip.rs`)

The iterator is parameterized by the 128-bit packed format. Only the
fields consulted by the embedded code are modelled: the digit-separator
byte (`0` = disabled), the radix used by `is_digit`, and the four
digit-separator flags of the *section* (integer / fraction / exponent)
the iterator views. The three section iterators are instances of the
same macros with their own flag subset, so a single parameterized model
covers all of them. -/

/-- The four per-section digit-separator flags of the format
(`INTEGER_INTERNAL_DIGIT_SEPARATOR`, ..., per section). -/
structure SepFlags where
  internal : Bool
  leading : Bool
  trailing : Bool
  consecutive : Bool
  deriving Repr, DecidableEq

/-- The fields of the packed `FORMAT` parameter consulted by the digit
iterator: the digit-separator byte (`0` means disabled), the radix for
`is_digit`, and the separator flags of the section being iterated. -/
structure SkipFmt where
  digitSeparator : Nat
  radix : Nat
  flags : SepFlags
  deriving Repr, DecidableEq

/-- `is_digit_separator` (skip.rs, macro `is_digit_separator!`): false when
the separator byte is `0` (disabled), else equality with the byte. -/
def isDigitSeparator (fmt : SkipFmt) (value : Nat) : Bool :=
  if fmt.digitSeparator = 0 then false else value = fmt.digitSeparator

/-- Modelled from the spec: `char_is_digit_const` lives in
`lexical-util/src/digit.rs`, which is not part of the sources; per the
spec a digit of radix `r` is an ASCII digit `0..9` below `min r 10`, or,
for `r > 10`, a letter (either case) whose value is below `r`. -/
def charIsDigit (value : Nat) (radix : Nat) : Bool :=
  (48 ≤ value && value < 48 + min radix 10)
    || (10 < radix &&
        ((97 ≤ value && value < 97 + (radix - 10))
          || (65 ≤ value && value < 65 + (radix - 10))))

/-- `is_digit` of the section iterators: `char_is_digit_const(value, radix)`. -/
def isDigit (fmt : SkipFmt) (value : Nat) : Bool :=
  charIsDigit value fmt.radix

/-- The state of `Bytes<'a, FORMAT>` (skip.rs): the underlying slice, the
cursor `index`, and the `count` of logically yielded values. -/
structure ByteState where
  slc : List Nat
  index : Nat
  count : Nat
  deriving Repr, DecidableEq

/-- `Bytes::new`: cursor and count start at zero. -/
def ByteState.new (slc : List Nat) : ByteState :=
  { slc := slc, index := 0, count := 0 }

/-- Length of a maximal run of digit separators at the head of a list.
This embeds the `while ... is_digit_separator ...` skip loops of
`peek_1`/`peek_n`/`peek_iltc` and `is_l`/`is_t`: advancing an index while
the scanned byte is a separator advances it by exactly the length of the
separator run starting at the scan position. -/
def sepRun (fmt : SkipFmt) : List Nat → Nat
  | [] => 0
  | x :: xs => if isDigitSeparator fmt x then sepRun fmt xs + 1 else 0

/-- The backward scan loop of `is_l` (skip.rs lines 70-84):
`while index > 0 && slc[index-1] is separator { index -= 1 }`. -/
def backSkip (fmt : SkipFmt) (slc : List Nat) : Nat → Nat
  | 0 => 0
  | j + 1 =>
    if slc[j]?.any (isDigitSeparator fmt) then backSkip fmt slc j else j + 1

/-- `is_l` (skip.rs macro `is_l!`): scan backward past separators; leading
iff nothing remains before them or the byte before them is not a digit. -/
def isL (fmt : SkipFmt) (s : ByteState) : Bool :=
  let j := backSkip fmt s.slc s.index
  j = 0 || !((s.slc[j - 1]?).any (isDigit fmt))

/-- The forward scan position of `is_t` (skip.rs macro `is_t!`):
`while index < slc.len() && slc[index+1] is separator { index += 1 }`.
Each step requires the byte at `index + 1` to be a separator, which
already forces `index + 1 < slc.len()`, so the loop advances by the
length of the separator run starting at `index + 1`. -/
def tPos (fmt : SkipFmt) (s : ByteState) : Nat :=
  s.index + sepRun fmt (s.slc.drop (s.index + 1))

/-- `is_t` (skip.rs macro `is_t!`): scan forward past separators; trailing
iff the scan reaches the end or the next byte is not a digit. -/
def isT (fmt : SkipFmt) (s : ByteState) : Bool :=
  let j := tPos fmt s
  j = s.slc.length || !((s.slc[j + 1]?).any (isDigit fmt))

/-- `is_i!`: internal iff neither leading nor trailing. -/
def isI (fmt : SkipFmt) (s : ByteState) : Bool :=
  !isL fmt s && !isT fmt s

/-- `is_il!`: leading or not trailing. -/
def isIL (fmt : SkipFmt) (s : ByteState) : Bool :=
  isL fmt s || !isT fmt s

/-- `is_it!`: trailing or not leading. -/
def isIT (fmt : SkipFmt) (s : ByteState) : Bool :=
  isT fmt s || !isL fmt s

/-- `is_lt!`: leading or trailing. -/
def isLT (fmt : SkipFmt) (s : ByteState) : Bool :=
  isL fmt s || isT fmt s

/-- `is_ilt!`: always true. -/
def isILT (_ : SkipFmt) (_ : ByteState) : Bool :=
  true

/-- The skip-loop target of `peek_1`/`peek_n` (skip.rs lines 151-157 and
179-185): starting from `index + 1`, advance while the scanned byte is a
digit separator. (`buffer_length()` in `peek_1` and `slc.len()` in
`peek_n` both denote the underlying slice length.) -/
def peekSkipTo (fmt : SkipFmt) (s : ByteState) : Nat :=
  s.index + 1 + sepRun fmt (s.slc.drop (s.index + 1))

/-- `peek_1!` (skip.rs lines 142-166): fetch the byte at the cursor; if it
is a digit separator and the positional predicate holds, advance the
cursor past the whole adjacent separator run and peek the byte there,
else return the fetched byte unchanged. Returns the updated state
together with the peeked value. -/
def peek1 (fmt : SkipFmt) (pred : SkipFmt → ByteState → Bool) (s : ByteState) :
    ByteState × Option Nat :=
  match s.slc[s.index]? with
  | none => (s, none)
  | some value =>
    if isDigitSeparator fmt value && pred fmt s then
      let j := peekSkipTo fmt s
      ({ s with index := j }, s.slc[j]?)
    else
      (s, some value)

/-- `peek_n!` (skip.rs lines 170-194). Its body is byte-for-byte the body
of `peek_1!` (both contain the same separator-run skip loop), so the
embedding is the same function. -/
def peekN (fmt : SkipFmt) (pred : SkipFmt → ByteState → Bool) (s : ByteState) :
    ByteState × Option Nat :=
  peek1 fmt pred s

/-- `peek_iltc!` (skip.rs lines 301-311): advance the cursor while it
rests on a digit separator, then peek (or `None` at the end). -/
def peekIltc (fmt : SkipFmt) (s : ByteState) : ByteState × Option Nat :=
  let j := s.index + sepRun fmt (s.slc.drop s.index)
  ({ s with index := j }, s.slc[j]?)

/-- `peek_noskip!`: peek the byte at the cursor, no state change. -/
def peekNoskip (s : ByteState) : ByteState × Option Nat :=
  (s, s.slc[s.index]?)

/-- `DigitsIter::peek` for the section iterators (skip.rs lines 706-743):
dispatch on the section's digit-separator flags. The arm with only the
`consecutive` flag set is `unreachable!()` in the source (such formats
are rejected at validation time); we embed it as a no-op returning
`none`. -/
def peekD (fmt : SkipFmt) (s : ByteState) : ByteState × Option Nat :=
  match fmt.flags.internal, fmt.flags.leading, fmt.flags.trailing, fmt.flags.consecutive with
  | false, false, false, false => peekNoskip s
  | true, false, false, false => peek1 fmt isI s
  | false, true, false, false => peek1 fmt isL s
  | false, false, true, false => peek1 fmt isT s
  | true, true, false, false => peek1 fmt isIL s
  | true, false, true, false => peek1 fmt isIT s
  | false, true, true, false => peek1 fmt isLT s
  | true, true, true, false => peek1 fmt isILT s
  | true, false, false, true => peekN fmt isI s
  | false, true, false, true => peekN fmt isL s
  | false, false, true, true => peekN fmt isT s
  | true, true, false, true => peekN fmt isIL s
  | true, false, true, true => peekN fmt isIT s
  | false, true, true, true => peekN fmt isLT s
  | true, true, true, true => peekIltc fmt s
  | false, false, false, true => (s, none)

/-- Whether the *section* iterator is contiguous
(`skip_iterator_iter_base!`: `FORMAT & mask == 0`, i.e. all four section
flags clear). -/
def sectionContiguous (fmt : SkipFmt) : Bool :=
  !(fmt.flags.internal || fmt.flags.leading || fmt.flags.trailing || fmt.flags.consecutive)

/-- Whether the underlying `Bytes` is contiguous
(`Bytes: IS_CONTIGUOUS = DIGIT_SEPARATOR == 0`). -/
def bytesContiguous (fmt : SkipFmt) : Bool :=
  fmt.digitSeparator = 0

/-- `Iterator::next` for the section iterators
(`skip_iterator_iterator_impl!`, skip.rs lines 606-626): peek (which may
advance past separators), then on success advance the cursor by one and,
for non-contiguous iterators, bump `count`. -/
def nextD (fmt : SkipFmt) (s : ByteState) : ByteState × Option Nat :=
  match peekD fmt s with
  | (s', none) => (s', none)
  | (s', some v) =>
    ({ s' with
        index := s'.index + 1,
        count := if sectionContiguous fmt then s'.count else s'.count + 1 },
      some v)

/-- `Iter::step_by_unchecked` for `Bytes` (skip.rs lines 496-518):
advance the cursor by `count` and, when the `Bytes` is non-contiguous,
bump the logical count by the same amount. -/
def stepByUnchecked (fmt : SkipFmt) (n : Nat) (s : ByteState) : ByteState :=
  { s with
      index := s.index + n,
      count := if bytesContiguous fmt then s.count else s.count + n }

/-- `Iter::first` (`Bytes`, skip.rs lines 490-493): the raw byte at the
cursor, with no separator skipping; the section iterators delegate to it
unchanged (`skip_iterator_iter_base!`). -/
def firstB (s : ByteState) : Option Nat :=
  s.slc[s.index]?

/-- `Iter::first_is_cased` (iterator.rs lines 115-118):
`Some(&value) == self.first()`. -/
def firstIsCased (s : ByteState) (value : Nat) : Bool :=
  firstB s == some value

/-- `u8::to_ascii_lowercase`. -/
def toAsciiLower (c : Nat) : Nat :=
  if 65 ≤ c && c ≤ 90 then c + 32 else c

/-- `Iter::first_is_uncased` (iterator.rs lines 121-128). -/
def firstIsUncased (s : ByteState) (value : Nat) : Bool :=
  match firstB s with
  | some c => toAsciiLower c == toAsciiLower value
  | none => false

/-- One `skip_zeros` loop body iteration bound: the loop of
`DigitsIter::skip_zeros` (iterator.rs lines 338-347) peeks and, while the
peeked byte is `b'0'`, calls `next`. Each successful iteration strictly
advances the cursor, which is bounded by the slice length, so
`slc.length + 1` iterations always suffice; the fuel only embeds that
termination argument. -/
def skipZerosAux (fmt : SkipFmt) : Nat → ByteState → ByteState
  | 0, s => s
  | fuel + 1, s =>
    let p := peekD fmt s
    if p.2 = some 48 then skipZerosAux fmt fuel (nextD fmt p.1).1 else p.1

/-- `DigitsIter::skip_zeros`: record the starting cursor, loop while
`peek` yields `b'0'` calling `next`, and return `cursor() - start`.
Returns the final state together with the returned count. -/
def skipZeros (fmt : SkipFmt) (s : ByteState) : ByteState × Nat :=
  let s' := skipZerosAux fmt (s.slc.length + 1) s
  (s', s'.index - s.index)

/-- `take_n` (skip.rs lines 583-600): only for contiguous section
iterators; split off a `Bytes` over the first `n` remaining underlying
bytes (`Bytes::from_parts`, count `0`) and advance this iterator's
cursor to the split point. Returns `(spawned, mutated self)`. -/
def takeN (fmt : SkipFmt) (n : Nat) (s : ByteState) :
    Option (ByteState × ByteState) :=
  if sectionContiguous fmt then
    let e := min s.slc.length (n + s.index)
    some ({ slc := s.slc.take e, index := s.index, count := 0 }, { s with index := e })
  else
    none

/-- `Iter::current_count` for `Bytes` (skip.rs lines 473-482): the cursor
when contiguous, else the tracked count. -/
def currentCount (fmt : SkipFmt) (s : ByteState) : Nat :=
  if bytesContiguous fmt then s.index else s.count

/-- The `Bytes` states reachable from `Bytes::new` through the public
operations of the digit iterators. The acting section iterator may use
any flag configuration `fl` over the shared separator byte and radix
(integer, fraction and exponent iterators all borrow the same `Bytes`).
`step_by_unchecked` carries its safety precondition `n ≤ remaining`;
`take_n` yields both the mutated source iterator and the spawned
`Bytes::from_parts` view. -/
inductive Reach (sep radix : Nat) : ByteState → Prop
  | new (slc : List Nat) : Reach sep radix (ByteState.new slc)
  | peek (fl : SepFlags) (s : ByteState) : Reach sep radix s →
      Reach sep radix (peekD ⟨sep, radix, fl⟩ s).1
  | next (fl : SepFlags) (s : ByteState) : Reach sep radix s →
      Reach sep radix (nextD ⟨sep, radix, fl⟩ s).1
  | stepBy (n : Nat) (s : ByteState) : Reach sep radix s →
      n ≤ s.slc.length - s.index → Reach sep radix (stepByUnchecked ⟨sep, radix, ⟨false, false, false, false⟩⟩ n s)
  | skipZeros (fl : SepFlags) (s : ByteState) : Reach sep radix s →
      Reach sep radix (skipZeros ⟨sep, radix, fl⟩ s).1
  | takeNSelf (fl : SepFlags) (n : Nat) (s spawned self : ByteState) : Reach sep radix s →
      takeN ⟨sep, radix, fl⟩ n s = some (spawned, self) → Reach sep radix self
  | takeNSpawn (fl : SepFlags) (n : Nat) (s spawned self : ByteState) : Reach sep radix s →
      takeN ⟨sep, radix, fl⟩ n s = some (spawned, self) → Reach sep radix spawned

/-! ## Float writer: sign and special values
(`lexical-write-float/src/write.rs`) -/

/-- The view of an IEEE-754 float consulted by the sign/special logic of
`WriteFloat::write_float`: its sign bit, and whether it is NaN, an
infinity, or a zero. -/
structure FP where
  negSign : Bool
  isNan : Bool
  isInf : Bool
  isZero : Bool
  deriving Repr, DecidableEq

/-- IEEE-754 `self < 0.0`: false for NaN (all comparisons with NaN are
false) and for negative zero (`-0.0 < 0.0` is false); true exactly for
negative non-NaN non-zero values (including `-inf`). -/
def FP.ltZero (f : FP) : Bool :=
  !f.isNan && f.negSign && !f.isZero

/-- `is_special()`: NaN or infinite. -/
def FP.isSpecial (f : FP) : Bool :=
  f.isNan || f.isInf

/-- Negation `-self` flips the sign bit. -/
def FP.neg (f : FP) : FP :=
  { f with negSign := !f.negSign }

/-- The writer `Options` fields consulted by the embedded code
(the options type itself lives outside the sources; fields and defaults
are modelled from the spec): optional NaN and Inf literals (byte
strings), and the optional exponent-break overrides used by the hex
back-end. -/
structure WOptions where
  nanString : Option (List Nat)
  infString : Option (List Nat)
  negativeExponentBreak : Option Int
  positiveExponentBreak : Option Int
  deriving Repr, DecidableEq

/-- Default options, modelled from the spec: `nan_string = "NaN"`,
`inf_string = "inf"`, exponent breaks unset (so `-5` and `9` apply). -/
def WOptions.default : WOptions :=
  { nanString := some [78, 97, 78], infString := some [105, 110, 102],
    negativeExponentBreak := none, positiveExponentBreak := none }

/-- The format flag of `write_float` consulted by the sign step:
`required_mantissa_sign`. -/
structure WFmt where
  requiredMantissaSign : Bool
  deriving Repr, DecidableEq

/-- `write_special` (write.rs lines 26-35): copy the literal to the
buffer and return its length, or `panic!(error)` when the literal is
`None`. Panics are modelled as `Except.error`; the written bytes stand
in for the buffer contents. -/
def writeSpecial (special : Option (List Nat)) (error : String) :
    Except String (List Nat) :=
  match special with
  | some specialStr => Except.ok specialStr
  | none => Except.error error

/-- `write_nan` (write.rs lines 38-46): the NaN literal after `count`
already-written sign bytes. -/
def writeNan (opts : WOptions) : Except String (List Nat) :=
  writeSpecial opts.nanString
    "NaN explicitly disabled but asked to write NaN as string."

/-- `write_inf` (write.rs lines 48-56). -/
def writeInf (opts : WOptions) : Except String (List Nat) :=
  writeSpecial opts.infString
    "Inf explicitly disabled but asked to write Inf as string."

/-- The sign-extraction and special-value dispatch of
`WriteFloat::write_float` (write.rs lines 106-161). The non-special
radix dispatch hands the (negated-to-positive) float to a back-end that
is outside this embedding, so the back-end is a parameter producing the
digit bytes. The result is the full written byte string (sign prefix
included); panics are `Except.error`. -/
def writeFloat (backend : FP → List Nat) (fmt : WFmt) (f : FP) (opts : WOptions) :
    Except String (List Nat) :=
  let signed : List Nat × FP :=
    if f.ltZero then ([45], f.neg)
    else if fmt.requiredMantissaSign then ([43], f)
    else ([], f)
  if !f.isSpecial then
    Except.ok (signed.1 ++ backend signed.2)
  else if f.isNan then
    (writeNan opts).map (fun lit => signed.1 ++ lit)
  else
    (writeInf opts).map (fun lit => signed.1 ++ lit)

/-- Whether a writer call panicked. -/
def isPanic (r : Except String (List Nat)) : Bool :=
  match r with
  | Except.error _ => true
  | Except.ok _ => false

/-! ## Hex back-end: scientific vs positional decision
(`lexical-write-float/src/hex.rs::write_float`, lines 212-258) -/

/-- The format flags consulted by the hex back-end's notation choice. -/
structure HexFmt where
  noExponentNotationFlag : Bool
  requiredExponentNotationFlag : Bool
  deriving Repr, DecidableEq

/-- The three output layouts of `hex::write_float`. -/
inductive NotationKind
  | scientific
  | positionalPos
  | positionalNeg
  deriving Repr, DecidableEq

/-- The scientific exponent (hex.rs lines 230-238):
`sci_exp = exp + mantissa_bits - 1`, normalized to `0` when the
(truncated and rounded) mantissa is zero. `mantissa` and `mantissa_bits`
are the outputs of `truncate_and_round`, which lives in the out-of-scope
binary back-end and is taken as an input here. -/
def sciExpOf (mantissa : Nat) (exp : Int) (mantissaBits : Nat) : Int :=
  if mantissa = 0 then 0 else exp + (mantissaBits : Int) - 1

/-- The notation decision of `hex::write_float` (hex.rs lines 240-258):
scientific when exponent notation is not disabled and (it is required,
or the scientific exponent lies outside the break window, whose
defaults are `-5` and `9` via `map_or`); otherwise positional, split on
the sign of the scientific exponent. -/
def chooseNotationKind (fmt : HexFmt) (opts : WOptions)
    (mantissa : Nat) (exp : Int) (mantissaBits : Nat) : NotationKind :=
  let sciExp := sciExpOf mantissa exp mantissaBits
  let minExp := opts.negativeExponentBreak.getD (-5)
  let maxExp := opts.positiveExponentBreak.getD 9
  if !fmt.noExponentNotationFlag
      && (fmt.requiredExponentNotationFlag || decide (sciExp < minExp) || decide (sciExp > maxExp)) then
    NotationKind.scientific
  else if sciExp ≥ 0 then
    NotationKind.positionalPos
  else
    NotationKind.positionalNeg

/-! ## Compact integer writer
(`lexical-write-integer/src/compact.rs::Compact::compact`) -/

/-- Modelled from the spec: `digit_to_char` lives in
`lexical-util/src/digit.rs`, which is not part of the sources; per the
spec it maps a digit value to its ASCII character, `0..=9` to `'0'..='9'`
and `10..` to lowercase letters from `'a'`. -/
def digitToChar (d : Nat) : Nat :=
  if d < 10 then 48 + d else 97 + (d - 10)

/-- The digit-generation loop of `Compact::compact` (compact.rs lines
36-55): repeatedly divide by the radix, writing the remainders from the
right of a 128-byte scratch area, then write the final remainder (the
most significant digit). Digits are listed most-significant first, as
they appear in the scratch area. The fuel counts the loop iterations the
128-byte scratch can absorb: for values below `radix ^ 128` (hence for
every value of a type of at most 128 bits in any radix ≥ 2) the loop
runs at most 127 times, and running out of scratch in the source would
be an out-of-bounds write. -/
def compactDigits (radix : Nat) : Nat → Nat → List Nat
  | 0, value => [value % radix]
  | fuel + 1, value =>
    if radix ≤ value then
      compactDigits radix fuel (value / radix) ++ [value % radix]
    else
      [value % radix]

/-- `Compact::compact`: the digit bytes (via `digit_to_char`) copied to
the front of the caller's buffer by `copy_to_dst`, and the returned
byte count (`copy_to_dst` returns the source length; it lives in the
out-of-scope `lexical-util/src/algorithm.rs` and is modelled from the
spec as copying to positions `[0, written)`). -/
def compact (radix : Nat) (value : Nat) : Nat × List Nat :=
  let bytes := (compactDigits radix 127 value).map digitToChar
  (bytes.length, bytes)

/-! ## Large-power tables (`src/atof/algorithm/large_powers.rs`) -/

/-- `POW3`: little-endian 32-bit limbs of `3^(2^i)`. -/
def POW3 : List (List Nat) := [
  [3],
  [9],
  [81],
  [6561],
  [43046721],
  [3793632897, 431439],
  [2038349057, 2033330060, 1456779151, 43],
  [2324068865, 2151814273, 4219200356, 3831009148, 1515007727, 1223069914, 1878],
  [120648705, 3524288303, 123305297, 1973552606, 1582677123, 4275192449, 223346561, 3350064824, 1500483036, 1257605964, 1367913622, 2878850248, 3527953],
  [1995565057, 493227282, 1124501772, 1987702555, 1293151165, 901580639, 3173678675, 2491643407, 2858789928, 4190666723, 3234280160, 1552091534, 1098766192, 535263123, 671427889, 2428827667, 442154954, 3812608783, 2997209821, 882392610, 726842283, 3784254415, 1868908668, 1167284160, 3936843162, 2897]
]

/-- `POW5`: little-endian 32-bit limbs of `5^(2^i)`. -/
def POW5 : List (List Nat) := [
  [5],
  [25],
  [625],
  [390625],
  [2264035265, 35],
  [2242703233, 762134875, 1262],
  [3211403009, 1849224548, 3668416493, 3913284084, 1593091],
  [781532673, 64985353, 253049085, 594863151, 3553621484, 3288652808, 3167596762, 2788392729, 3911132675, 590],
  [2553183233, 3201533787, 3638140786, 303378311, 1809731782, 3477761648, 3583367183, 649228654, 2915460784, 487929380, 1011012442, 1677677582, 3428152256, 1710878487, 1438394610, 2161952759, 4100910556, 1608314830, 349175]
]

/-- `POW7`: little-endian 32-bit limbs of `7^(2^i)`. -/
def POW7 : List (List Nat) := [
  [7],
  [49],
  [2401],
  [5764801],
  [2768600449, 7737],
  [1855011585, 809251672, 59871144],
  [3233510913, 429135816, 2162242590, 3594221799, 4265959880, 834593],
  [467332097, 140397015, 2040215064, 1542555902, 642371654, 3366106563, 831699702, 4090248544, 1331205625, 2632189658, 762431610, 162],
  [21354497, 135586989, 282407512, 217755548, 3801957565, 1769047343, 3062175267, 1076844155, 1124873580, 2147641037, 1086167164, 3185325477, 3247742386, 2077448856, 1351003107, 2494468834, 1425599169, 1702421937, 627210051, 1827625163, 1157572577, 2350050876, 26301]
]

/-- `POW11`: little-endian 32-bit limbs of `11^(2^i)`. -/
def POW11 : List (List Nat) := [
  [11],
  [121],
  [14641],
  [214358881],
  [772479681, 10698505],
  [2875311489, 3456163242, 1429612321, 26649],
  [2585905921, 2073480325, 1636806860, 3370723472, 3947938656, 3233553771, 710186941],
  [725390849, 983511997, 1546466724, 1452173552, 4110885543, 3594965768, 3109748563, 3754293795, 4268788147, 2994526333, 3490277564, 3382469739, 833985310, 117431742],
  [4267518977, 3418704948, 4145983365, 2633889206, 1401015784, 2168955970, 4023491585, 2524575715, 1049283211, 445723862, 2434794608, 580179552, 2985579862, 2834866824, 480627468, 2191904507, 996937640, 2935962584, 1843145488, 1510931281, 327439189, 27267795, 129172641, 339183348, 3871693391, 3654642246, 1800239665, 3210784]
]

/-- `POW13`: little-endian 32-bit limbs of `13^(2^i)`. -/
def POW13 : List (List Nat) := [
  [13],
  [169],
  [28561],
  [815730721],
  [1778525249, 154929377],
  [1780897921, 912625740, 57455785, 5588660],
  [954528001, 2552460193, 811089956, 1065775915, 3255164516, 1007972746, 118568612, 7272],
  [2628444673, 1667825520, 3480482745, 1792807966, 2982160738, 2216443239, 1414760918, 1741036037, 3705043424, 136135250, 395110073, 1084641480, 2452973265, 2183283898, 52882385],
  [685360129, 1249145954, 645630652, 1995019793, 3253088488, 1804068787, 392320294, 1343267562, 507087513, 2330257028, 3658736453, 3072903141, 2377702882, 4240373633, 2610933614, 2563321149, 1240024358, 1174015769, 312909694, 3764772638, 510500093, 1167371064, 563930725, 3086997765, 1545500121, 2429233725, 68804066, 1863990200, 3296313385, 651121]
]

/-- `POW17`: little-endian 32-bit limbs of `17^(2^i)`. -/
def POW17 : List (List Nat) := [
  [17],
  [289],
  [83521],
  [2680790145, 1],
  [1614772481, 2739882033, 2],
  [2276454913, 2771029215, 73658097, 4117442370, 6],
  [3492013057, 3480731623, 2144081192, 1009276412, 4254173166, 4151923560, 452949210, 1816956013, 48],
  [3277309953, 1864847191, 707834086, 1365492312, 4096642650, 2628241885, 1040897072, 3647618881, 4287772355, 126927969, 3695747218, 1041208948, 524092261, 1484945811, 3697469546, 3397736009, 2344],
  [317689857, 1450665849, 1775742626, 792817246, 735751321, 1553574078, 160284371, 1873256746, 2085456896, 2906891001, 2367433931, 2570134778, 3520334249, 99950267, 475720041, 4178498415, 925636968, 3880190760, 4090350540, 1913195868, 737980718, 2149816287, 3313879437, 1462712522, 3066369386, 2488096894, 2055534827, 1929403434, 1042156826, 164256614, 685827684, 1240652339, 5498045]
]

/-- `POW19`: little-endian 32-bit limbs of `19^(2^i)`. -/
def POW19 : List (List Nat) := [
  [19],
  [361],
  [130321],
  [4098661153, 3],
  [1637415489, 2733490537, 15],
  [1674773633, 2120389729, 2125575713, 2140041202, 244],
  [851069185, 953120046, 3422911417, 3249671984, 1253122465, 387558350, 2121285446, 1729366164, 59779],
  [2386924033, 190345838, 2985903449, 2575403751, 3663280926, 3225853746, 4150572491, 603254694, 1674172707, 3673007190, 1176051141, 3802513312, 1962388533, 482203478, 2403994182, 530593434, 3573576981]
]

/-- `POW23`: little-endian 32-bit limbs of `23^(2^i)`. -/
def POW23 : List (List Nat) := [
  [23],
  [529],
  [279841],
  [1001573953, 18],
  [1854975105, 1930488089, 332],
  [1633523969, 2552572211, 2550303091, 2811546753, 110522],
  [1210855937, 1436506257, 788091685, 4255817435, 2500410572, 2361723765, 2618086504, 4203283319, 3625322590, 2],
  [3390858241, 538851, 3291369078, 492442738, 2850638734, 3029803664, 2378638741, 755966606, 185069185, 2748924587, 3547456468, 2115104919, 3398114034, 3022323801, 3693445824, 1646113784, 2709808682, 381505921, 8]
]

/-- `POW29`: little-endian 32-bit limbs of `29^(2^i)`. -/
def POW29 : List (List Nat) := [
  [29],
  [841],
  [707281],
  [2030206625, 116],
  [1797710145, 3816168866, 13565],
  [4219425409, 2265142903, 4119564573, 1570454940, 184033331],
  [3969180929, 1340492553, 1739183727, 105569977, 1767257366, 1739519195, 3874617455, 3771111571, 1793220428, 7885570],
  [1845676545, 3608513765, 1294341313, 344489966, 566774291, 427680924, 163628113, 422450508, 3222465417, 3727450692, 2861254789, 883344622, 1689193932, 1672377999, 1874044950, 3963222593, 1712211922, 4194848827, 3979265421, 14477]
]

/-- `POW31`: little-endian 32-bit limbs of `31^(2^i)`. -/
def POW31 : List (List Nat) := [
  [31],
  [961],
  [923521],
  [2487512833, 198],
  [1353309697, 2948261936, 39433],
  [2111290369, 854830039, 1377820608, 3005187674, 1555015626],
  [1304393729, 558465812, 2768012290, 3935646446, 3376640041, 1419477874, 1557778152, 3873581017, 2245632988, 563001632],
  [3820941313, 3840574348, 1970562388, 1279978999, 91057081, 172159608, 7026786, 3609778129, 320477644, 2720004857, 2683868502, 3872769187, 1705702550, 1250974998, 1821061582, 2142610495, 2457779444, 131107681, 1215733575, 73800524]
]

/-- `get_large_powers` (large_powers.rs lines 138-154). The `_` arm is
`unreachable!()` in the source; we embed it as the empty table. -/
def getLargePowers (base : Nat) : List (List Nat) :=
  match base with
  | 3 => POW3
  | 5 => POW5
  | 7 => POW7
  | 11 => POW11
  | 13 => POW13
  | 17 => POW17
  | 19 => POW19
  | 23 => POW23
  | 29 => POW29
  | 31 => POW31
  | _ => []

/-- The value of a little-endian sequence of 32-bit limbs. -/
def limbsToNat (limbs : List Nat) : Nat :=
  limbs.foldr (fun limb acc => limb + 4294967296 * acc) 0

/-- Full correctness of one large-power table: every entry `i` decodes
to `p^(2^i)`, and the table stops at the largest `i` with
`p^(2^i) ≤ 2^1075` (the last entry is within the bound, the next power
would exceed it). -/
def tableCorrect (p : Nat) : Bool :=
  let t := getLargePowers p
  (List.range t.length).all (fun i => limbsToNat (t.getD i []) == p ^ (2 ^ i))
    && decide (p ^ (2 ^ (t.length - 1)) ≤ 2 ^ 1075)
    && decide (2 ^ 1075 < p ^ (2 ^ t.length))

/-! ## Concrete instances used by counterexamples and witnesses -/

/-- A format with digit separator `b'_'`, radix 10, and only the
*internal* digit-separator flag of the acting section set (the
`consecutive` flag is clear). -/
def cfgInternal : SkipFmt :=
  ⟨95, 10, ⟨true, false, false, false⟩⟩

/-- A contiguous format: digit separator disabled. -/
def cfgPlain : SkipFmt :=
  ⟨0, 10, ⟨false, false, false, false⟩⟩

/-- Negative NaN: sign bit set, NaN. -/
def negNaN : FP := ⟨true, true, false, false⟩

/-- Positive infinity. -/
def posInf : FP := ⟨false, false, true, false⟩


/-! ## Helper lemmas about the separator-run scan -/

theorem sepRun_le (fmt : SkipFmt) : ∀ l : List Nat, sepRun fmt l ≤ l.length := by
  intro l
  induction l with
  | nil => simp [sepRun]
  | cons x xs ih =>
    simp only [sepRun, List.length_cons]
    split <;> omega

theorem sepRun_get (fmt : SkipFmt) :
    ∀ (l : List Nat) (w : Nat), l[sepRun fmt l]? = some w →
      isDigitSeparator fmt w = false := by
  intro l
  induction l with
  | nil => intro w h; simp at h
  | cons x xs ih =>
    intro w h
    cases hx : isDigitSeparator fmt x with
    | true =>
      simp only [sepRun, hx, if_true, List.getElem?_cons_succ] at h
      exact ih w h
    | false =>
      simp only [sepRun, hx, Bool.false_eq_true, if_false, List.getElem?_cons_zero] at h
      cases h
      exact hx

theorem sepRun_drop_sepRun (fmt : SkipFmt) :
    ∀ l : List Nat, sepRun fmt (l.drop (sepRun fmt l)) = 0 := by
  intro l
  induction l with
  | nil => simp [sepRun]
  | cons x xs ih =>
    by_cases hx : isDigitSeparator fmt x
    · simpa [sepRun, hx] using ih
    · simp [sepRun, hx]

theorem sepRun_of_disabled (fmt : SkipFmt) (h : fmt.digitSeparator = 0) :
    ∀ l : List Nat, sepRun fmt l = 0 := by
  intro l
  cases l with
  | nil => rfl
  | cons x xs => simp [sepRun, isDigitSeparator, h]

theorem getElem?_some_lt {l : List Nat} {n x : Nat} (h : l[n]? = some x) :
    n < l.length :=
  (List.getElem?_eq_some.mp h).1


/-! ## Helper lemmas about `peek` -/

/-- `DigitsIter::peek` is, uniformly in the state, one of the four peek
consumers, according to the section's flags. -/
theorem peekD_cases (fmt : SkipFmt) :
    (∀ s, peekD fmt s = peekNoskip s) ∨
      (∃ pred, ∀ s, peekD fmt s = peek1 fmt pred s) ∨
      (∀ s, peekD fmt s = peekIltc fmt s) ∨
      (∀ s, peekD fmt s = (s, none)) := by
  obtain ⟨sep, radix, i, l, t, c⟩ := fmt
  cases i <;> cases l <;> cases t <;> cases c <;>
    first
      | exact Or.inl fun s => rfl
      | exact Or.inr (Or.inl ⟨_, fun s => rfl⟩)
      | exact Or.inr (Or.inr (Or.inl fun s => rfl))
      | exact Or.inr (Or.inr (Or.inr fun s => rfl))

theorem peek1_state (fmt : SkipFmt) (pred : SkipFmt → ByteState → Bool) (s : ByteState) :
    (peek1 fmt pred s).1.slc = s.slc ∧ (peek1 fmt pred s).1.count = s.count ∧
      s.index ≤ (peek1 fmt pred s).1.index ∧
      (s.index ≤ s.slc.length → (peek1 fmt pred s).1.index ≤ s.slc.length) := by
  cases hv : s.slc[s.index]? with
  | none =>
    have h : peek1 fmt pred s = (s, none) := by unfold peek1; rw [hv]
    rw [h]
    exact ⟨rfl, rfl, Nat.le_refl _, fun h => h⟩
  | some value =>
    cases hc : (isDigitSeparator fmt value && pred fmt s) with
    | false =>
      have h : peek1 fmt pred s = (s, some value) := by
        unfold peek1; rw [hv]; simp [hc]
      rw [h]
      exact ⟨rfl, rfl, Nat.le_refl _, fun h => h⟩
    | true =>
      have h : peek1 fmt pred s =
          ({ s with index := peekSkipTo fmt s }, s.slc[peekSkipTo fmt s]?) := by
        unfold peek1; rw [hv]; simp [hc]
      rw [h]
      have hlt : s.index < s.slc.length := getElem?_some_lt hv
      have hrun := sepRun_le fmt (s.slc.drop (s.index + 1))
      have hdl : (s.slc.drop (s.index + 1)).length = s.slc.length - (s.index + 1) :=
        List.length_drop _ _
      refine ⟨rfl, rfl, ?_, ?_⟩
      · show s.index ≤ peekSkipTo fmt s
        unfold peekSkipTo; omega
      · intro _
        show peekSkipTo fmt s ≤ s.slc.length
        unfold peekSkipTo; omega

theorem peekIltc_state (fmt : SkipFmt) (s : ByteState) :
    (peekIltc fmt s).1.slc = s.slc ∧ (peekIltc fmt s).1.count = s.count ∧
      s.index ≤ (peekIltc fmt s).1.index ∧
      (s.index ≤ s.slc.length → (peekIltc fmt s).1.index ≤ s.slc.length) := by
  have hrun := sepRun_le fmt (s.slc.drop s.index)
  have hdl : (s.slc.drop s.index).length = s.slc.length - s.index :=
    List.length_drop _ _
  have hix : (peekIltc fmt s).1.index = s.index + sepRun fmt (s.slc.drop s.index) := rfl
  exact ⟨rfl, rfl, by omega, fun h => by omega⟩

theorem peekD_state (fmt : SkipFmt) (s : ByteState) :
    (peekD fmt s).1.slc = s.slc ∧ (peekD fmt s).1.count = s.count ∧
      s.index ≤ (peekD fmt s).1.index ∧
      (s.index ≤ s.slc.length → (peekD fmt s).1.index ≤ s.slc.length) := by
  rcases peekD_cases fmt with h | ⟨pred, h⟩ | h | h <;> rw [h s]
  · exact ⟨rfl, rfl, Nat.le_refl _, fun h => h⟩
  · exact peek1_state fmt pred s
  · exact peekIltc_state fmt s
  · exact ⟨rfl, rfl, Nat.le_refl _, fun h => h⟩

theorem peek1_value (fmt : SkipFmt) (pred : SkipFmt → ByteState → Bool) (s : ByteState)
    (v : Nat) (h : (peek1 fmt pred s).2 = some v) :
    (peek1 fmt pred s).1.slc[(peek1 fmt pred s).1.index]? = some v := by
  cases hv : s.slc[s.index]? with
  | none =>
    have he : peek1 fmt pred s = (s, none) := by unfold peek1; rw [hv]
    rw [he] at h; cases h
  | some value =>
    cases hc : (isDigitSeparator fmt value && pred fmt s) with
    | false =>
      have he : peek1 fmt pred s = (s, some value) := by
        unfold peek1; rw [hv]; simp [hc]
      rw [he] at h ⊢
      cases h
      exact hv
    | true =>
      have he : peek1 fmt pred s =
          ({ s with index := peekSkipTo fmt s }, s.slc[peekSkipTo fmt s]?) := by
        unfold peek1; rw [hv]; simp [hc]
      rw [he] at h ⊢
      exact h

theorem peekD_value (fmt : SkipFmt) (s : ByteState) (v : Nat)
    (h : (peekD fmt s).2 = some v) :
    (peekD fmt s).1.slc[(peekD fmt s).1.index]? = some v := by
  rcases peekD_cases fmt with hc | ⟨pred, hc⟩ | hc | hc <;> rw [hc s] at h ⊢
  · exact h
  · exact peek1_value fmt pred s v h
  · exact h
  · cases h

theorem peek1_idem (fmt : SkipFmt) (pred : SkipFmt → ByteState → Bool) (s : ByteState) :
    peek1 fmt pred (peek1 fmt pred s).1 = peek1 fmt pred s := by
  cases hv : s.slc[s.index]? with
  | none =>
    have he : peek1 fmt pred s = (s, none) := by unfold peek1; rw [hv]
    rw [he]
    exact he
  | some value =>
    cases hc : (isDigitSeparator fmt value && pred fmt s) with
    | false =>
      have he : peek1 fmt pred s = (s, some value) := by
        unfold peek1; rw [hv]; simp [hc]
      rw [he]
      exact he
    | true =>
      have he : peek1 fmt pred s =
          ({ s with index := peekSkipTo fmt s }, s.slc[peekSkipTo fmt s]?) := by
        unfold peek1; rw [hv]; simp [hc]
      rw [he]
      cases hj : s.slc[peekSkipTo fmt s]? with
      | none =>
        conv_lhs => unfold peek1
        simp only []
        rw [show ({ s with index := peekSkipTo fmt s } : ByteState).slc[
              ({ s with index := peekSkipTo fmt s } : ByteState).index]? =
            s.slc[peekSkipTo fmt s]? from rfl, hj]
      | some w =>
        have hw : isDigitSeparator fmt w = false := by
          have hg : (s.slc.drop (s.index + 1))[sepRun fmt (s.slc.drop (s.index + 1))]?
              = some w := by
            rw [List.getElem?_drop]
            exact hj
          exact sepRun_get fmt _ w hg
        conv_lhs => unfold peek1
        simp only []
        rw [show ({ s with index := peekSkipTo fmt s } : ByteState).slc[
              ({ s with index := peekSkipTo fmt s } : ByteState).index]? =
            s.slc[peekSkipTo fmt s]? from rfl, hj]
        simp [hw, hj]

theorem peekIltc_idem (fmt : SkipFmt) (s : ByteState) :
    peekIltc fmt (peekIltc fmt s).1 = peekIltc fmt s := by
  have hdd : s.slc.drop (s.index + sepRun fmt (s.slc.drop s.index)) =
      (s.slc.drop s.index).drop (sepRun fmt (s.slc.drop s.index)) := by
    rw [List.drop_drop, Nat.add_comm]
  show peekIltc fmt { s with index := s.index + sepRun fmt (s.slc.drop s.index) } = _
  unfold peekIltc
  simp only []
  rw [hdd, sepRun_drop_sepRun]
  simp

theorem peekD_idem (fmt : SkipFmt) (s : ByteState) :
    peekD fmt (peekD fmt s).1 = peekD fmt s := by
  rcases peekD_cases fmt with hc | ⟨pred, hc⟩ | hc | hc
  · rw [hc s, hc]
    rfl
  · rw [hc s, hc]
    exact peek1_idem fmt pred s
  · rw [hc s, hc]
    exact peekIltc_idem fmt s
  · rw [hc s, hc]

/-! ## Helper lemmas about `next` and `skip_zeros` -/

theorem nextD_eq_none (fmt : SkipFmt) (s : ByteState) (h : (peekD fmt s).2 = none) :
    nextD fmt s = ((peekD fmt s).1, none) := by
  unfold nextD
  rcases hP : peekD fmt s with ⟨s', v'⟩
  rw [hP] at h
  cases h
  rfl

theorem nextD_eq_some (fmt : SkipFmt) (s : ByteState) (v : Nat)
    (h : (peekD fmt s).2 = some v) :
    nextD fmt s =
      ({ (peekD fmt s).1 with
          index := (peekD fmt s).1.index + 1,
          count := if sectionContiguous fmt then (peekD fmt s).1.count
                   else (peekD fmt s).1.count + 1 }, some v) := by
  unfold nextD
  rcases hP : peekD fmt s with ⟨s', v'⟩
  rw [hP] at h
  cases h
  rfl

/-- The data-structure invariant of claim C5: the logical count never
exceeds the cursor, and the cursor never leaves the buffer. -/
def Inv (s : ByteState) : Prop :=
  s.count ≤ s.index ∧ s.index ≤ s.slc.length

theorem peekD_inv (fmt : SkipFmt) (s : ByteState) (h : Inv s) : Inv (peekD fmt s).1 := by
  obtain ⟨h1, h2⟩ := h
  obtain ⟨hs, hc, hi, hb⟩ := peekD_state fmt s
  exact ⟨by rw [hc]; omega, by rw [hs]; exact hb h2⟩

theorem nextD_inv (fmt : SkipFmt) (s : ByteState) (h : Inv s) : Inv (nextD fmt s).1 := by
  obtain ⟨h1, h2⟩ := h
  obtain ⟨hs, hc, hi, hb⟩ := peekD_state fmt s
  cases hv : (peekD fmt s).2 with
  | none =>
    rw [nextD_eq_none fmt s hv]
    exact peekD_inv fmt s ⟨h1, h2⟩
  | some v =>
    rw [nextD_eq_some fmt s v hv]
    have hvlt : (peekD fmt s).1.index < (peekD fmt s).1.slc.length :=
      getElem?_some_lt (peekD_value fmt s v hv)
    rw [hs] at hvlt
    constructor
    · show (if sectionContiguous fmt then (peekD fmt s).1.count
            else (peekD fmt s).1.count + 1) ≤ (peekD fmt s).1.index + 1
      split <;> (rw [hc]; omega)
    · show (peekD fmt s).1.index + 1 ≤ (peekD fmt s).1.slc.length
      rw [hs]; omega

theorem nextD_slc (fmt : SkipFmt) (s : ByteState) : (nextD fmt s).1.slc = s.slc := by
  obtain ⟨hs, _, _, _⟩ := peekD_state fmt s
  cases hv : (peekD fmt s).2 with
  | none => rw [nextD_eq_none fmt s hv]; exact hs
  | some v => rw [nextD_eq_some fmt s v hv]; exact hs

theorem nextD_index_ge (fmt : SkipFmt) (s : ByteState) :
    s.index ≤ (nextD fmt s).1.index := by
  obtain ⟨_, _, hi, _⟩ := peekD_state fmt s
  cases hv : (peekD fmt s).2 with
  | none => rw [nextD_eq_none fmt s hv]; exact hi
  | some v =>
    rw [nextD_eq_some fmt s v hv]
    show s.index ≤ (peekD fmt s).1.index + 1
    omega

theorem peekD_none_of_ge (fmt : SkipFmt) (s : ByteState)
    (h : s.slc.length ≤ s.index) : (peekD fmt s).2 = none := by
  cases hv : (peekD fmt s).2 with
  | none => rfl
  | some v =>
    obtain ⟨hs, _, hi, _⟩ := peekD_state fmt s
    have := getElem?_some_lt (peekD_value fmt s v hv)
    rw [hs] at this
    omega

theorem skipZerosAux_slc (fmt : SkipFmt) :
    ∀ (fuel : Nat) (s : ByteState), (skipZerosAux fmt fuel s).slc = s.slc := by
  intro fuel
  induction fuel with
  | zero => intro s; rfl
  | succ fuel ih =>
    intro s
    obtain ⟨hs, _, _, _⟩ := peekD_state fmt s
    unfold skipZerosAux
    dsimp only
    split
    · rw [ih, nextD_slc, hs]
    · exact hs

theorem skipZerosAux_index_ge (fmt : SkipFmt) :
    ∀ (fuel : Nat) (s : ByteState), s.index ≤ (skipZerosAux fmt fuel s).index := by
  intro fuel
  induction fuel with
  | zero => intro s; exact Nat.le_refl _
  | succ fuel ih =>
    intro s
    obtain ⟨_, _, hi, _⟩ := peekD_state fmt s
    unfold skipZerosAux
    dsimp only
    split
    · calc s.index ≤ (peekD fmt s).1.index := hi
        _ ≤ (nextD fmt (peekD fmt s).1).1.index := nextD_index_ge fmt _
        _ ≤ _ := ih _
    · exact hi

theorem skipZerosAux_inv (fmt : SkipFmt) :
    ∀ (fuel : Nat) (s : ByteState), Inv s → Inv (skipZerosAux fmt fuel s) := by
  intro fuel
  induction fuel with
  | zero => intro s h; exact h
  | succ fuel ih =>
    intro s h
    unfold skipZerosAux
    dsimp only
    split
    · exact ih _ (nextD_inv fmt _ (peekD_inv fmt s h))
    · exact peekD_inv fmt s h

theorem isDigitSeparator_of_disabled (fmt : SkipFmt) (h : fmt.digitSeparator = 0)
    (v : Nat) : isDigitSeparator fmt v = false := by
  simp [isDigitSeparator, h]

theorem peek1_contig (fmt : SkipFmt) (h : fmt.digitSeparator = 0)
    (pred : SkipFmt → ByteState → Bool) (s : ByteState) :
    peek1 fmt pred s = (s, s.slc[s.index]?) := by
  cases hv : s.slc[s.index]? with
  | none => unfold peek1; rw [hv]
  | some value =>
    unfold peek1
    rw [hv]
    simp [isDigitSeparator_of_disabled fmt h]

theorem peekIltc_contig (fmt : SkipFmt) (h : fmt.digitSeparator = 0) (s : ByteState) :
    peekIltc fmt s = (s, s.slc[s.index]?) := by
  unfold peekIltc
  rw [sepRun_of_disabled fmt h]
  simp

/-- With the digit separator disabled, peek is a pure read of
`slc[index]`, except in the `unreachable!()` dispatch arm (only the
`consecutive` flag set), where it returns `none`; in every case the
state is unchanged. -/
theorem peekD_contig (fmt : SkipFmt) (h : fmt.digitSeparator = 0) (s : ByteState) :
    peekD fmt s = (s, s.slc[s.index]?) ∨ peekD fmt s = (s, none) := by
  rcases peekD_cases fmt with hc | ⟨pred, hc⟩ | hc | hc <;> rw [hc s]
  · exact Or.inl rfl
  · exact Or.inl (peek1_contig fmt h pred s)
  · exact Or.inl (peekIltc_contig fmt h s)
  · exact Or.inr rfl

/-- In the contiguous case every byte the `skip_zeros` loop advances over
is `b'0'`. -/
theorem skipZerosAux_zeros (fmt : SkipFmt) (h : fmt.digitSeparator = 0) :
    ∀ (fuel : Nat) (s : ByteState) (j : Nat), s.index ≤ j →
      j < (skipZerosAux fmt fuel s).index → s.slc[j]? = some 48 := by
  intro fuel
  induction fuel with
  | zero =>
    intro s j h1 h2
    rw [show skipZerosAux fmt 0 s = s from rfl] at h2
    omega
  | succ fuel ih =>
    intro s j h1 h2
    unfold skipZerosAux at h2
    dsimp only at h2
    by_cases hz : (peekD fmt s).2 = some 48
    · rw [if_pos hz] at h2
      rcases peekD_contig fmt h s with hc | hc
      · have hv : s.slc[s.index]? = some 48 := by
          have := hz
          rw [hc] at this
          exact this
        have hstep : (nextD fmt (peekD fmt s).1).1 = (nextD fmt s).1 := by rw [hc]
        have hnext : (nextD fmt s).1 =
            { s with
                index := s.index + 1,
                count := if sectionContiguous fmt then s.count else s.count + 1 } := by
          rw [nextD_eq_some fmt s 48 hz, hc]
        rw [hstep, hnext] at h2
        rcases Nat.eq_or_lt_of_le h1 with heq | hlt
        · rw [← heq]
          exact hv
        · refine ih { s with
              index := s.index + 1,
              count := if sectionContiguous fmt then s.count else s.count + 1 } j ?_ h2
          show s.index + 1 ≤ j
          omega
      · rw [hc] at hz
        cases hz
    · rw [if_neg hz] at h2
      rcases peekD_contig fmt h s with hc | hc <;> rw [hc] at h2 <;>
        dsimp only at h2 <;> omega

/-- With fuel at least `slc.length + 1 - index` the `skip_zeros` loop
runs to completion: at the final state `peek` no longer yields `b'0'`. -/
theorem skipZerosAux_complete (fmt : SkipFmt) :
    ∀ (fuel : Nat) (s : ByteState), s.slc.length + 1 - s.index ≤ fuel →
      (peekD fmt (skipZerosAux fmt fuel s)).2 ≠ some 48 := by
  intro fuel
  induction fuel with
  | zero =>
    intro s hf
    rw [show skipZerosAux fmt 0 s = s from rfl]
    have hge : s.slc.length ≤ s.index := by omega
    rw [peekD_none_of_ge fmt s hge]
    intro hcon
    cases hcon
  | succ fuel ih =>
    intro s hf
    unfold skipZerosAux
    dsimp only
    by_cases hz : (peekD fmt s).2 = some 48
    · rw [if_pos hz]
      obtain ⟨hs, _, hi, _⟩ := peekD_state fmt s
      have hvlt : (peekD fmt s).1.index < (peekD fmt s).1.slc.length :=
        getElem?_some_lt (peekD_value fmt s 48 hz)
      have hidem := peekD_idem fmt s
      have hz1 : (peekD fmt (peekD fmt s).1).2 = some 48 := by rw [hidem]; exact hz
      have hst1 : (peekD fmt (peekD fmt s).1).1 = (peekD fmt s).1 := by rw [hidem]
      have hnext := nextD_eq_some fmt (peekD fmt s).1 48 hz1
      have hns : (nextD fmt (peekD fmt s).1).1.slc = (peekD fmt s).1.slc := by
        rw [hnext, hst1]
      have hni : (nextD fmt (peekD fmt s).1).1.index = (peekD fmt s).1.index + 1 := by
        rw [hnext, hst1]
      refine ih _ ?_
      rw [hns, hni, hs]
      rw [hs] at hvlt
      omega
    · rw [if_neg hz]
      rw [peekD_idem fmt s]
      exact hz

theorem stepBy_inv (fmt : SkipFmt) (n : Nat) (s : ByteState)
    (hpre : n ≤ s.slc.length - s.index) (h : Inv s) :
    Inv (stepByUnchecked fmt n s) := by
  obtain ⟨h1, h2⟩ := h
  unfold stepByUnchecked Inv
  dsimp only
  split <;> omega

theorem takeN_inv (fmt : SkipFmt) (n : Nat) (s spawned self : ByteState) (h : Inv s)
    (he : takeN fmt n s = some (spawned, self)) : Inv spawned ∧ Inv self := by
  obtain ⟨h1, h2⟩ := h
  unfold takeN at he
  split at he
  · dsimp only at he
    cases he
    constructor
    · constructor
      · exact Nat.zero_le _
      · show s.index ≤ (s.slc.take (min s.slc.length (n + s.index))).length
        rw [List.length_take]
        omega
    · constructor
      · show s.count ≤ min s.slc.length (n + s.index)
        omega
      · show min s.slc.length (n + s.index) ≤ s.slc.length
        omega
  · cases he

/-- Every reachable `Bytes` state satisfies the structural invariant. -/
theorem reach_inv (sep radix : Nat) (s : ByteState) (h : Reach sep radix s) : Inv s := by
  induction h with
  | new slc => exact ⟨Nat.le_refl _, Nat.zero_le _⟩
  | peek fl s hr ih => exact peekD_inv _ _ ih
  | next fl s hr ih => exact nextD_inv _ _ ih
  | stepBy n s hr hpre ih => exact stepBy_inv _ n s hpre ih
  | skipZeros fl s hr ih => exact skipZerosAux_inv _ _ _ ih
  | takeNSelf fl n s spawned self hr he ih => exact (takeN_inv _ n s spawned self ih he).2
  | takeNSpawn fl n s spawned self hr he ih => exact (takeN_inv _ n s spawned self ih he).1

/-! ## Claim theorems -/

/-- **C1** (code bug; evaluation at the failing input). For the format
`cfgInternal` — digit separator `b'_'`, *internal* separator flag set,
`consecutive` flag clear — on the input `"1__2"` with the cursor at
index 1 (two adjacent separators under the cursor), a single `peek`
advances the cursor from 1 all the way to 3, skipping *both* adjacent
separator bytes and returning `b'2'`. The claim (and the source's own
`peek_i` documentation, "Consumes at most 1 internal digit separator")
say at most one separator byte may be skipped when `consecutive` is not
set. -/
theorem peek_nonconsecutive_skips_run :
    peekD cfgInternal ⟨[49, 95, 95, 50], 1, 1⟩ = (⟨[49, 95, 95, 50], 3, 1⟩, some 50) ∧
      cfgInternal.flags.consecutive = false ∧
      isDigitSeparator cfgInternal 95 = true ∧
      ([49, 95, 95, 50] : List Nat)[1]? = some 95 ∧
      ([49, 95, 95, 50] : List Nat)[2]? = some 95 := by
  decide

/-- **C5.** Every `Bytes` state reachable from `Bytes::new` by the public
operations (`peek`, `next`, `step_by_unchecked`, `skip_zeros`, `take_n`)
satisfies `count ≤ index`, and whenever the format's digit separator is
disabled (`IS_CONTIGUOUS`) `current_count()` equals `cursor()`. -/
theorem reachable_count_le_cursor (sep radix : Nat) (fl : SepFlags) (s : ByteState)
    (h : Reach sep radix s) :
    s.count ≤ s.index ∧ (sep = 0 → currentCount ⟨sep, radix, fl⟩ s = s.index) := by
  refine ⟨(reach_inv sep radix s h).1, fun h0 => ?_⟩
  simp [currentCount, bytesContiguous, h0]

/-- Witness for C5: the invariant at a concrete reachable state. -/
theorem reachable_count_le_cursor_witness :
    (ByteState.new [49, 50, 51]).count ≤ (ByteState.new [49, 50, 51]).index ∧
      currentCount cfgPlain (ByteState.new [49, 50, 51]) =
        (ByteState.new [49, 50, 51]).index :=
  ⟨(reachable_count_le_cursor 0 10 ⟨false, false, false, false⟩ _ (Reach.new _)).1,
   (reachable_count_le_cursor 0 10 ⟨false, false, false, false⟩ _ (Reach.new _)).2 rfl⟩

/-- **C6** (counterexample). For the internal-separator format on input
`"0_0x"`, `skip_zeros` from the fresh iterator returns `3` — the cursor
advance, which includes the skipped separator byte — while only `2`
zero digits were logically consumed (the final logical count). The
claim, which says the return value is the number of `b'0'` bytes
logically consumed, is therefore false. -/
theorem skip_zeros_counts_separators_counterexample :
    (skipZeros cfgInternal (ByteState.new [48, 95, 48, 120])).2 = 3 ∧
      (skipZeros cfgInternal (ByteState.new [48, 95, 48, 120])).1.count = 2 ∧
      (skipZeros cfgInternal (ByteState.new [48, 95, 48, 120])).2 ≠
        (skipZeros cfgInternal (ByteState.new [48, 95, 48, 120])).1.count := by
  decide

/-- **C6** (amended). `skip_zeros` advances while `peek` yields `b'0'`
(at the final state `peek` no longer yields `b'0'`) and returns
`cursor() - start`: the number of underlying bytes advanced over, which
counts any digit-separator bytes the peeks passed over as well as the
zeros. When the digit separator is disabled every advanced byte is
`b'0'`, so the return value is then exactly the number of zeros
consumed. -/
theorem skip_zeros_returns_cursor_delta (fmt : SkipFmt) (s : ByteState) :
    (skipZeros fmt s).2 = (skipZeros fmt s).1.index - s.index ∧
      s.index ≤ (skipZeros fmt s).1.index ∧
      (peekD fmt (skipZeros fmt s).1).2 ≠ some 48 ∧
      (fmt.digitSeparator = 0 → ∀ j, s.index ≤ j → j < (skipZeros fmt s).1.index →
        s.slc[j]? = some 48) := by
  refine ⟨rfl, skipZerosAux_index_ge fmt _ s, ?_, ?_⟩
  · exact skipZerosAux_complete fmt _ s (by omega)
  · intro h0 j h1 h2
    exact skipZerosAux_zeros fmt h0 _ s j h1 h2

/-- Witness for C6 (amended): on the contiguous input `"001"` the loop
advances over two bytes and every advanced byte is a zero. -/
theorem skip_zeros_returns_cursor_delta_witness :
    (skipZeros cfgPlain (ByteState.new [48, 48, 49])).2 =
        (skipZeros cfgPlain (ByteState.new [48, 48, 49])).1.index -
          (ByteState.new [48, 48, 49]).index ∧
      (ByteState.new [48, 48, 49]).slc[0]? = some 48 :=
  ⟨(skip_zeros_returns_cursor_delta cfgPlain (ByteState.new [48, 48, 49])).1,
   (skip_zeros_returns_cursor_delta cfgPlain (ByteState.new [48, 48, 49])).2.2.2 rfl 0
     (Nat.le_refl 0) (by decide)⟩

/-- **C7.** The skipping iterators' `peek` is idempotent: in any state
and under any section flag configuration, a second `peek` returns the
same value as the first and leaves the state — in particular the cursor
— unchanged (the pair equality states both at once). -/
theorem peek_idempotent (fmt : SkipFmt) (s : ByteState) :
    peekD fmt (peekD fmt s).1 = peekD fmt s :=
  peekD_idem fmt s

/-- **C10.** On every iterator variant `first()` returns the raw byte at
the cursor, with no digit-separator skipping, and `first_is_cased` /
`first_is_uncased` compare that raw byte; consequently on the skipping
format `cfgInternal` with the cursor resting on the separator of
`"1_2"`, `first` returns the separator byte `b'_'` (and `first_is_cased`
matches it) while `peek` skips it and yields `b'2'`. -/
theorem first_returns_raw_byte (s : ByteState) (v : Nat) :
    firstB s = s.slc[s.index]? ∧
      (firstIsCased s v = true ↔ s.slc[s.index]? = some v) ∧
      (firstIsUncased s v = true ↔
        (s.slc[s.index]?).map toAsciiLower = some (toAsciiLower v)) ∧
      (firstB ⟨[49, 95, 50], 1, 0⟩ = some 95 ∧
        firstIsCased ⟨[49, 95, 50], 1, 0⟩ 95 = true ∧
        isDigitSeparator cfgInternal 95 = true ∧
        (peekD cfgInternal ⟨[49, 95, 50], 1, 0⟩).2 = some 50) := by
  refine ⟨rfl, ?_, ?_, by decide⟩
  · simp [firstIsCased, firstB]
  · unfold firstIsUncased firstB
    cases hv : s.slc[s.index]? with
    | none => simp
    | some c => simp

/-- **C2** (counterexample). Writing negative NaN with default options
does *not* produce `"-NaN"`: the sign step tests `self < 0.0`, which is
false for NaN, so no `'-'` is emitted. -/
theorem write_neg_nan_counterexample :
    writeFloat (fun _ => []) ⟨false⟩ negNaN WOptions.default ≠
      Except.ok [45, 78, 97, 78] := by
  intro h
  have h' : Except.ok ([78, 97, 78] : List Nat) =
      Except.ok ([45, 78, 97, 78] : List Nat) := h
  injection h' with h2
  exact absurd h2 (by decide)

/-- **C2** (amended). With default options, writing negative NaN yields
`"NaN"` (no sign: the sign-extraction step tests `self < 0.0`, which is
false for every NaN) and writing positive infinity yields `"inf"`; more
generally, for any NaN input no `'-'` is ever emitted, whatever the
digit back-end. -/
theorem write_neg_nan_amended (backend : FP → List Nat) (fmt : WFmt) (f : FP) :
    writeFloat backend ⟨false⟩ negNaN WOptions.default = Except.ok [78, 97, 78] ∧
      writeFloat backend ⟨false⟩ posInf WOptions.default = Except.ok [105, 110, 102] ∧
      (f.isNan = true → writeFloat backend fmt f WOptions.default =
        Except.ok ((if fmt.requiredMantissaSign then [43] else []) ++ [78, 97, 78])) := by
  refine ⟨rfl, rfl, fun h => ?_⟩
  obtain ⟨neg, nan, inf, zero⟩ := f
  cases h
  obtain ⟨req⟩ := fmt
  cases req <;> rfl

/-- Witness for C2 (amended): the general NaN clause applied at the
concrete input `-NaN` with a sign-requiring format. -/
theorem write_neg_nan_amended_witness :
    writeFloat (fun _ => []) ⟨false⟩ negNaN WOptions.default = Except.ok [78, 97, 78] ∧
      writeFloat (fun _ => []) ⟨true⟩ negNaN WOptions.default =
        Except.ok [43, 78, 97, 78] :=
  ⟨(write_neg_nan_amended (fun _ => []) ⟨false⟩ negNaN).1,
   (write_neg_nan_amended (fun _ => []) ⟨true⟩ negNaN).2.2 rfl⟩

/-- **C9.** The float writer panics exactly when asked to serialize a
NaN (resp. infinite) value whose literal is `None` in the options; when
the literal is present `write_special` copies it to the output and
returns normally, and non-special writes never panic. -/
theorem write_panics_iff_literal_none (backend : FP → List Nat) (fmt : WFmt)
    (f : FP) (opts : WOptions) (lit : List Nat) (err : String) :
    isPanic (writeFloat backend fmt f opts) =
        (f.isNan && opts.nanString.isNone
          || (!f.isNan && f.isInf && opts.infString.isNone)) ∧
      writeSpecial (some lit) err = Except.ok lit ∧
      isPanic (writeSpecial none err) = true := by
  refine ⟨?_, rfl, rfl⟩
  obtain ⟨neg, nan, inf, zero⟩ := f
  obtain ⟨nanStr, infStr, nbrk, pbrk⟩ := opts
  cases nan <;> cases inf <;> cases nanStr <;> cases infStr <;>
    simp [writeFloat, isPanic, FP.isSpecial, FP.ltZero, writeNan, writeInf,
      writeSpecial, Except.map]

/-- **C8.** For every input to the hex/power-of-two back-end, scientific
layout is chosen if and only if the `no_exponent_notation` flag is clear
and (`required_exponent_notation` holds, or the scientific exponent is
strictly below the negative break, or strictly above the positive
break); the breaks default to `-5` and `9` when unset; otherwise the
positional layout for non-negative or negative scientific exponent is
used. -/
theorem hex_scientific_iff (fmt : HexFmt) (opts : WOptions) (m : Nat) (e : Int) (b : Nat) :
    (chooseNotationKind fmt opts m e b = NotationKind.scientific ↔
        fmt.noExponentNotationFlag = false ∧
          (fmt.requiredExponentNotationFlag = true ∨
            sciExpOf m e b < opts.negativeExponentBreak.getD (-5) ∨
            opts.positiveExponentBreak.getD 9 < sciExpOf m e b)) ∧
      (chooseNotationKind fmt opts m e b = NotationKind.positionalPos ↔
        ¬(fmt.noExponentNotationFlag = false ∧
            (fmt.requiredExponentNotationFlag = true ∨
              sciExpOf m e b < opts.negativeExponentBreak.getD (-5) ∨
              opts.positiveExponentBreak.getD 9 < sciExpOf m e b)) ∧
          0 ≤ sciExpOf m e b) ∧
      (chooseNotationKind fmt opts m e b = NotationKind.positionalNeg ↔
        ¬(fmt.noExponentNotationFlag = false ∧
            (fmt.requiredExponentNotationFlag = true ∨
              sciExpOf m e b < opts.negativeExponentBreak.getD (-5) ∨
              opts.positiveExponentBreak.getD 9 < sciExpOf m e b)) ∧
          sciExpOf m e b < 0) ∧
      WOptions.default.negativeExponentBreak.getD (-5) = -5 ∧
      WOptions.default.positiveExponentBreak.getD 9 = 9 := by
  unfold chooseNotationKind
  cases hno : fmt.noExponentNotationFlag <;>
    cases hreq : fmt.requiredExponentNotationFlag <;>
    by_cases h1 : sciExpOf m e b < opts.negativeExponentBreak.getD (-5) <;>
    by_cases h2 : opts.positiveExponentBreak.getD 9 < sciExpOf m e b <;>
    by_cases h3 : 0 ≤ sciExpOf m e b <;>
    simp [h1, h2, h3, hno, hreq, WOptions.default] <;>
    omega

/-! ## Compact integer writer: correctness -/

/-- With radix at least 2 and enough fuel for the value, the compact
digit loop produces exactly the base-`r` digits of the value, most
significant first (`Nat.digits` is little-endian, hence the reverse),
with the single digit `0` for the value zero. -/
theorem compactDigits_eq (r : Nat) (hr : 2 ≤ r) :
    ∀ (fuel v : Nat), v < r ^ (fuel + 1) →
      compactDigits r fuel v = if v = 0 then [0] else (Nat.digits r v).reverse := by
  intro fuel
  induction fuel with
  | zero =>
    intro v hv
    rw [pow_one] at hv
    have hle : ¬ r ≤ v := by omega
    rw [show compactDigits r 0 v = [v % r] from rfl, Nat.mod_eq_of_lt hv]
    by_cases h0 : v = 0
    · rw [if_pos h0, h0]
    · rw [if_neg h0]
      rw [Nat.digits_def' (by omega : 1 < r) (by omega : 0 < v)]
      rw [Nat.div_eq_of_lt hv]
      rw [Nat.mod_eq_of_lt hv]
      simp
  | succ fuel ih =>
    intro v hv
    by_cases hge : r ≤ v
    · have hv0 : v ≠ 0 := by omega
      have hdiv : v / r < r ^ (fuel + 1) := by
        apply Nat.div_lt_of_lt_mul
        calc v < r ^ (fuel + 1 + 1) := hv
          _ = r * r ^ (fuel + 1) := by ring
      have hq0 : v / r ≠ 0 := by
        have := Nat.div_pos hge (show 0 < r by omega)
        omega
      have hstep : compactDigits r (fuel + 1) v =
          compactDigits r fuel (v / r) ++ [v % r] := by
        simp only [compactDigits, if_pos hge]
      rw [hstep, ih (v / r) hdiv, if_neg hq0, if_neg hv0]
      rw [Nat.digits_def' (by omega : 1 < r) (by omega : 0 < v)]
      rw [List.reverse_cons]
    · have hle2 : v < r := by omega
      have hstep : compactDigits r (fuel + 1) v = [v % r] := by
        simp only [compactDigits, if_neg hge]
      rw [hstep, Nat.mod_eq_of_lt hle2]
      by_cases h0 : v = 0
      · rw [if_pos h0, h0]
      · rw [if_neg h0]
        rw [Nat.digits_def' (by omega : 1 < r) (by omega : 0 < v)]
        rw [Nat.div_eq_of_lt hle2, Nat.mod_eq_of_lt hle2]
        simp

/-- A digit value below a radix of at most 36 maps to a byte that
`char_is_digit_const` accepts for that radix. -/
theorem digitToChar_is_digit (d r : Nat) (hd : d < r) (hr : r ≤ 36) :
    charIsDigit (digitToChar d) r = true := by
  unfold charIsDigit digitToChar
  by_cases h10 : d < 10 <;>
    simp only [h10, if_true, if_false, Bool.or_eq_true, Bool.and_eq_true,
      decide_eq_true_eq] <;>
    omega

/-- **C3.** For every value of at most 128 bits and every radix in
`2..=36`, the compact integer writer returns the number of bytes
written; those bytes are the ASCII digits (via `digit_to_char`) of the
base-`r` digits of the value, most significant first; each digit is a
valid digit of the radix; recomposing the digits yields the value back;
zero writes exactly `"0"` and a nonzero value has no leading zero. -/
theorem compact_correct (r v : Nat) (hr2 : 2 ≤ r) (hr36 : r ≤ 36) (hv : v < 2 ^ 128) :
    (compact r v).1 = (compact r v).2.length ∧
      (compact r v).2 = (compactDigits r 127 v).map digitToChar ∧
      (∀ d ∈ compactDigits r 127 v, d < r ∧ charIsDigit (digitToChar d) r = true) ∧
      Nat.ofDigits r (compactDigits r 127 v).reverse = v ∧
      (v = 0 → (compact r v).2 = [48]) ∧
      (v ≠ 0 → compactDigits r 127 v = (Nat.digits r v).reverse ∧
        (compactDigits r 127 v).head? ≠ some 0) := by
  have hpow : v < r ^ 128 := by
    calc v < 2 ^ 128 := hv
      _ ≤ r ^ 128 := Nat.pow_le_pow_left hr2 128
  have heq := compactDigits_eq r hr2 127 v hpow
  refine ⟨rfl, rfl, ?_, ?_, ?_, ?_⟩
  · intro d hd
    rw [heq] at hd
    by_cases h0 : v = 0
    · rw [if_pos h0] at hd
      simp only [List.mem_singleton] at hd
      cases hd
      exact ⟨by omega, digitToChar_is_digit 0 r (by omega) hr36⟩
    · rw [if_neg h0] at hd
      rw [List.mem_reverse] at hd
      have hlt : d < r := Nat.digits_lt_base (by omega) hd
      exact ⟨hlt, digitToChar_is_digit d r hlt hr36⟩
  · rw [heq]
    by_cases h0 : v = 0
    · rw [if_pos h0, h0]
      simp [Nat.ofDigits]
    · rw [if_neg h0, List.reverse_reverse]
      exact Nat.ofDigits_digits r v
  · intro h0
    show (compactDigits r 127 v).map digitToChar = [48]
    rw [heq, if_pos h0]
    rfl
  · intro h0
    rw [heq, if_neg h0]
    refine ⟨rfl, ?_⟩
    rw [List.head?_reverse]
    have hne : Nat.digits r v ≠ [] := Nat.digits_ne_nil_iff_ne_zero.mpr h0
    rw [List.getLast?_eq_getLast _ hne]
    intro hcon
    have hlast := Nat.getLast_digit_ne_zero (b := r) h0
    injection hcon with hcon'
    exact hlast hcon'

/-- Witness for C3: the writer at radix 10 on the value 12345. -/
theorem compact_correct_witness :
    (compact 10 12345).2 = [49, 50, 51, 52, 53] ∧
      Nat.ofDigits 10 (compactDigits 10 127 12345).reverse = 12345 := by
  have h := compact_correct 10 12345 (by decide) (by decide) (by decide)
  exact ⟨by decide, h.2.2.2.1⟩

set_option maxRecDepth 100000 in
/-- **C4.** For every prime `p` in `{3,5,7,11,13,17,19,23,29,31}` the
table returned by `get_large_powers(p)` is fully correct: entry `i`,
decoded from little-endian 32-bit limbs, equals `p^(2^i)` exactly, and
the table is truncated at the largest `i` with `p^(2^i) ≤ 2^1075` (the
last entry is within the bound and the next power would exceed it). -/
theorem large_powers_tables_correct :
    ([3, 5, 7, 11, 13, 17, 19, 23, 29, 31].all tableCorrect) = true := by
  decide
